import Mathlib

/-!
Shallow embedding of the `fund_tracker_psx` extraction pipeline
(`scrapper/quotationextraction.py`, `scrapper/datareader.py`,
`scrapper/execution.py`, `utils/fipi_lipi_processor.py`).

Conventions of the embedding:
* A pandas cell is `Option String` (`none` models `None`/`NaN`).
* A raw pdfplumber table is `List (List (Option String))` (rows of cells).
* A `DataFrame` is a list of column labels plus rows of optional cells.
* Python exceptions that a function catches (returning `None`) are modelled
  by an `Option` result; exceptions a function re-raises are `Except`.
* File-system / network / Excel I/O is outside the embedding: the functions
  are modelled from the first in-memory value the source code derives from
  the file (e.g. the row list produced by `pd.read_csv`).
-/

/-- Python `pat in s` substring test on strings. -/
def strContains (s pat : String) : Bool :=
  (List.range (s.data.length + 1)).any (fun i => pat.data.isPrefixOf (s.data.drop i))

/-- Python whitespace (regex `\s`, `str.strip`) on the ASCII range. -/
def isPyWS (c : Char) : Bool :=
  c = ' ' || c = '\t' || c = '\n' || c = '\r' || c.toNat = 11 || c.toNat = 12

/-- Python `str.strip()` (whitespace trim at both ends). -/
def pyStrip (s : String) : String :=
  ⟨((s.data.dropWhile isPyWS).reverse.dropWhile isPyWS).reverse⟩

/-- `str.replace(",", "")`: drop every comma (also the effect of
`df.replace(",", "", regex=True)` on a string cell). -/
def remComma (s : String) : String := ⟨s.data.filter (fun c => c ≠ ',')⟩

/-- `str.replace("\n", " ")`: each newline becomes one space. -/
def nlToSpace (s : String) : String :=
  ⟨s.data.map (fun c => if c = '\n' then ' ' else c)⟩

/-- `re.sub(r"\s+", " ", s)`: every maximal whitespace run becomes one
space.  The flag records whether the previous character was whitespace. -/
def collapseWSAux : List Char → Bool → List Char
  | [], _ => []
  | c :: rest, inWS =>
    if isPyWS c then
      if inWS then collapseWSAux rest true
      else ' ' :: collapseWSAux rest true
    else c :: collapseWSAux rest false

/-- `re.sub(r"\s+", " ", s)` on a string. -/
def collapseWS (s : String) : String := ⟨collapseWSAux s.data false⟩

/-- Width pandas gives `pd.DataFrame(rows)`: the longest row length
(shorter rows are padded with `NaN`). -/
def maxRowLen (t : List (List α)) : Nat := t.foldl (fun m r => max m r.length) 0

/-- A pandas DataFrame: column labels and rows of optional string cells. -/
structure DF where
  cols : List String
  rows : List (List (Option String))
deriving DecidableEq

/-- `pd.DataFrame()`. -/
def emptyDF : DF := ⟨[], []⟩

/-- `row[i]` as an optional cell (out of range gives `none`). -/
def cellAt (r : List (Option String)) (i : Nat) : Option String :=
  (r.get? i).getD none

/-- Reindex one row from the source column list to the target column list
(missing labels become `NaN`), as `pd.concat` alignment does. -/
def realignRow (src tgt : List String) (r : List (Option String)) : List (Option String) :=
  tgt.map (fun c =>
    match src.findIdx? (fun k => k = c) with
    | some i => cellAt r i
    | none => none)

/-- `pd.concat([d1, d2], axis=0)`: equal column lists concatenate rows,
otherwise columns are outer-aligned in first-seen order. -/
def pdConcat (d1 d2 : DF) : DF :=
  if d1.cols = [] ∧ d1.rows = [] then d2
  else if d1.cols = d2.cols then ⟨d1.cols, d1.rows ++ d2.rows⟩
  else
    let cols := d1.cols ++ d2.cols.filter (fun c => !d1.cols.contains c)
    ⟨cols, d1.rows.map (realignRow d1.cols cols) ++ d2.rows.map (realignRow d2.cols cols)⟩

/-- One pdfplumber page: its `extract_text()` result and its
`extract_tables()` result (`extract_table()` is the first of these). -/
structure Page where
  text : String
  tables : List (List (List (Option String)))
deriving DecidableEq

/-- An opened pdfplumber document: `metadata.get("CreationDate")` and the
page list. -/
structure PDoc where
  metaCreationDate : Option String
  pages : List Page
deriving DecidableEq

/-- `target_table_pattern` of `PDFExtraction.extract_page_numbers`. -/
def targetPatterns : List String :=
  ["SECTION 1: MACRO VIEW OF THE MARKET",
   "SECTION 5: BOARD MEETINGS",
   "SECTION 12: ALL SHARES INDEX REPORT (SECTOR WISE)",
   "SECTION 13: MAIN BOARD DATA FOR THE LAST 6 MONTHS"]

/-- Record a page-number hit for one pattern in the insertion-ordered dict
(`targeted_pages_nums[pattern].append(n)` with a fresh list on first hit). -/
def addHit (d : List (String × List Nat)) (pat : String) (n : Nat) : List (String × List Nat) :=
  if d.any (fun kv => kv.1 = pat) then
    d.map (fun kv => if kv.1 = pat then (kv.1, kv.2 ++ [n]) else kv)
  else d ++ [(pat, [n])]

/-- The inner `for pattern in target_table_pattern` loop of
`extract_page_numbers` for one page's text, recording `n` on each hit. -/
def pageHits (d : List (String × List Nat)) (text : String) (n : Nat) : List (String × List Nat) :=
  targetPatterns.foldl (fun acc pat => if strContains text pat then addHit acc pat n else acc) d

/-- The outer `for page_num, page in enumerate(target_pdf, start=1)` loop:
the page paired with counter `n` records `n + 1`. -/
def scanPages : List Page → Nat → List (String × List Nat) → List (String × List Nat)
  | [], _, d => d
  | p :: ps, n, d => scanPages ps (n + 1) (pageHits d p.text (n + 1))

/-- `PDFExtraction.extract_page_numbers`: scan `pages[1:]` with
`enumerate(..., start=1)`, appending `page_num + 1` for each pattern found
as a substring of the page text.  The dict is an insertion-ordered
association list. -/
def extract_page_numbers (doc : PDoc) : List (String × List Nat) :=
  scanPages (doc.pages.drop 1) 1 []

/-- Page list of one pattern in the result dict (`[]` when absent). -/
def lookupPages (d : List (String × List Nat)) (pat : String) : List Nat :=
  match d.find? (fun kv => kv.1 = pat) with
  | some kv => kv.2
  | none => []

/-- A raw pdfplumber table: rows of optional cells. -/
abbrev RawTable := List (List (Option String))

/-- Row with `None` cells removed (`[cell for cell in row if cell is not None]`). -/
def rowClean (r : List (Option String)) : List String := r.filterMap id

/-- `any(pat in cell for cell in cleanedRow)`. -/
def rowHasSub (pat : String) (c : List String) : Bool :=
  c.any (fun cell => strContains cell pat)

/-- Gregorian leap year, as `datetime.strptime` validates dates. -/
def isLeap (y : Nat) : Bool := (y % 4 = 0 && y % 100 ≠ 0) || y % 400 = 0

/-- Days in a month, for `%d` validation. -/
def daysInMonth (y m : Nat) : Nat :=
  if m = 2 then (if isLeap y then 29 else 28)
  else if m = 4 ∨ m = 6 ∨ m = 9 ∨ m = 11 then 30 else 31

/-- Decimal digits to a natural number. -/
def digitsToNat (l : List Char) : Nat := l.foldl (fun a c => 10 * a + (c.toNat - 48)) 0

/-- `datetime.strptime(s, "%Y%m%d").date()`: eight digits, valid calendar
date; anything else raises (modelled as `none`). -/
def parseYMD (s : String) : Option (Nat × Nat × Nat) :=
  if s.data.length = 8 ∧ s.data.all Char.isDigit then
    let y := digitsToNat (s.data.take 4)
    let m := digitsToNat ((s.data.drop 4).take 2)
    let d := digitsToNat (s.data.drop 6)
    if 1 ≤ m ∧ m ≤ 12 ∧ 1 ≤ d ∧ d ≤ daysInMonth y m then some (y, m, d) else none
  else none

/-- Zero-pad to two digits. -/
def pad2 (n : Nat) : String := if n < 10 then "0" ++ toString n else toString n

/-- The ISO rendering a `datetime.date` cell prints as. -/
def dateStr : Nat × Nat × Nat → String
  | (y, m, d) => toString y ++ "-" ++ pad2 m ++ "-" ++ pad2 d

/-- `loop_ending_pattern` of `extract_macro_view`. -/
def macroSentinel : String := "PUBLICLY ISSUED DEBT SECURITIES"

/-- The row-collection loop of `extract_macro_view`: clean each row and stop
(before appending) at the first row containing the sentinel substring. -/
def collectMacro (t : RawTable) : List (List String) :=
  (t.map rowClean).takeWhile (fun c => !rowHasSub macroSentinel c)

/-- `PDFExtraction.extract_macro_view`: single-page extraction feeding a
transpose; the creation date comes from `metadata["CreationDate"][2:10]`.
Any exception is caught and logged (`none`). -/
def extract_macro_view (doc : PDoc) (nums : List Nat) : Option DF :=
  match doc.metaCreationDate with
  | none => none
  | some cd =>
    match parseYMD ((cd.drop 2).take 8) with
    | none => none
    | some date =>
      match nums.get? 0 with
      | none => none
      | some a =>
        match doc.pages.get? (a - 1) with
        | none => none
        | some p =>
          match p.tables.head? with
          | none => none
          | some t =>
            let cleaned := (collectMacro t).map (fun r => r.map remComma)
            if maxRowLen cleaned = 4 then
              let kept := cleaned.filter (fun r => r.length == 4)
              let market := kept.map (fun r => (r.get? 0).getD "")
              let mainB := kept.map (fun r => (r.get? 1).getD "")
              let gemB := kept.map (fun r => (r.get? 3).getD "")
              some ⟨"index" :: "c_ex_id" :: "Date" :: market,
                    [some "Main Board" :: some "1" :: some (dateStr date) :: mainB.map some,
                     some "GEM Board" :: some "1" :: some (dateStr date) :: gemB.map some]⟩
            else none

/-- `page.extract_table()`: pdfplumber's single-table extraction, the
first of the page's tables (`None`, i.e. `[]` here, when there is none). -/
def extractTable (p : Page) : RawTable := p.tables.headD []

/-- The per-page step shared (textually duplicated in the source) by both
branches of `extract_event_table`: pad-aware `dropna`, promote the first
surviving row to headers, drop the leading index column. -/
def eventPageSpec (t : RawTable) : Option DF :=
  match t.filter (fun r => r.length == maxRowLen t && r.all Option.isSome) with
  | [] => none
  | h :: body => some ⟨(h.drop 1).filterMap id, body.map (List.drop 1)⟩

/-- The Date/Time fusion of the single-page branch of
`extract_event_table`.  `pd.to_datetime` is abstracted as the fused
`"date time"` string; `astype(str)` renders a missing cell as `"nan"`. -/
def fuseDT (d : DF) : Option DF :=
  match d.cols.findIdx? (fun c => c = "Date"), d.cols.findIdx? (fun c => c = "Time") with
  | some iD, some iT =>
    some ⟨(d.cols.filter (fun c => !(c = "Date" || c = "Time"))) ++ ["Datetime"],
          d.rows.map (fun r =>
            ((d.cols.zip r).filterMap
              (fun cv => if cv.1 = "Date" || cv.1 = "Time" then none else some cv.2)) ++
            [some (((cellAt r iD).getD "nan") ++ " " ++ ((cellAt r iT).getD "nan"))])⟩
  | _, _ => none

/-- The multi-page loop of `extract_event_table` (`for page in
range(nums[0]-1, nums[1])`), concatenating per-page tables; per-page steps
are inlined as in the source, with no datetime fusion. -/
def eventLoopImpl (doc : PDoc) : List Nat → DF → Option DF
  | [], acc => some acc
  | i :: rest, acc =>
    match doc.pages.get? i with
    | none => none
    | some p =>
      match (extractTable p).filter
          (fun r => r.length == maxRowLen (extractTable p) && r.all Option.isSome) with
      | [] => none
      | h :: body =>
        eventLoopImpl doc rest (pdConcat acc ⟨(h.drop 1).filterMap id, body.map (List.drop 1)⟩)

/-- The Date/Time fusion lines of the single-page branch over the promoted
header list and the truncated rows; a missing `Date` or `Time` column
raises `KeyError`, caught into `pd.DataFrame()`. -/
def eventFuseRows (cols : List String) (rows : List (List (Option String))) : DF :=
  match cols.findIdx? (fun c => c = "Date"), cols.findIdx? (fun c => c = "Time") with
  | some iD, some iT =>
    ⟨(cols.filter (fun c => !(c = "Date" || c = "Time"))) ++ ["Datetime"],
     rows.map (fun r =>
       ((cols.zip r).filterMap
         (fun cv => if cv.1 = "Date" || cv.1 = "Time" then none else some cv.2)) ++
       [some (((cellAt r iD).getD "nan") ++ " " ++ ((cellAt r iT).getD "nan"))])⟩
  | _, _ => emptyDF

/-- The single-page branch of `extract_event_table` on one raw table:
pad-aware `dropna`, promote the first surviving row to headers, drop the
leading index column, then the Date/Time fusion. -/
def eventSingle (t : RawTable) : DF :=
  match t.filter (fun r => r.length == maxRowLen t && r.all Option.isSome) with
  | [] => emptyDF
  | h :: body => eventFuseRows ((h.drop 1).filterMap id) (body.map (List.drop 1))

/-- `PDFExtraction.extract_event_table`.  One page number: per-page step
then Date/Time fusion.  More: per-page steps concatenated, no fusion.
Every exception is caught and `pd.DataFrame()` returned, so the result is
total. -/
def extract_event_table (doc : PDoc) (nums : List Nat) : DF :=
  match nums with
  | [a] =>
    match doc.pages.get? (a - 1) with
    | none => emptyDF
    | some p => eventSingle (extractTable p)
  | a :: b :: _ => (eventLoopImpl doc (List.range' (a - 1) (b - (a - 1))) emptyDF).getD emptyDF
  | [] => emptyDF

/-- `loop_ending_pattern` of `extract_sector_table`. -/
def sectorSentinel : String := "SECTION 13: MAIN BOARD DATA FOR THE LAST 6 MONTHS"

/-- Inner row loop of `extract_sector_table` over one table: collect cleaned
rows, signalling `stop` at the first sentinel-bearing row. -/
def collectRowsOne : List (List (Option String)) → List (List String) × Bool
  | [] => ([], false)
  | r :: rs =>
    let c := rowClean r
    if rowHasSub sectorSentinel c then ([], true)
    else
      let (d, s) := collectRowsOne rs
      (c :: d, s)

/-- Table loop of `extract_sector_table` over one page's tables, honouring
the per-page `stop` flag. -/
def collectSector : List RawTable → List (List String)
  | [] => []
  | t :: ts =>
    let (d, s) := collectRowsOne t
    if s then d else d ++ collectSector ts

/-- The DataFrame post-processing of one page in `extract_sector_table`:
pad-aware `dropna`, first row to headers, drop the first column, strip
commas and whitespace from cells, collapse newlines in headers and in the
`Sector Name` column (missing column raises, giving `none`). -/
def buildSectorDF (data : List (List String)) : Option DF :=
  let L := maxRowLen data
  match data.filter (fun r => r.length == L) with
  | [] => none
  | h :: body =>
    let cols := (h.drop 1).map nlToSpace
    let rows := body.map (fun r => (r.drop 1).map (fun c => pyStrip (remComma c)))
    match cols.findIdx? (fun c => c = "Sector Name") with
    | none => none
    | some i =>
      some ⟨cols, rows.map (fun r => r.mapIdx (fun j c => some (if j = i then nlToSpace c else c)))⟩

/-- Page loop of `extract_sector_table`: each page's tables are scanned
afresh (the `stop` flag is re-initialised per page) and the page tables are
concatenated. -/
def sectorLoop (doc : PDoc) : List Nat → DF → Option DF
  | [], acc => some acc
  | i :: rest, acc =>
    match doc.pages.get? i with
    | none => none
    | some p =>
      match buildSectorDF (collectSector p.tables) with
      | none => none
      | some df => sectorLoop doc rest (pdConcat acc df)

/-- `PDFExtraction.extract_sector_table` over `range(nums[0]-1, nums[1])`;
exceptions are caught and logged (`none`). -/
def extract_sector_table (doc : PDoc) (nums : List Nat) : Option DF :=
  match nums.get? 0, nums.get? 1 with
  | some a, some b => sectorLoop doc (List.range' (a - 1) (b - (a - 1))) emptyDF
  | _, _ => none

/-- Row cleaning of `six_month_market_summary`: drop `None` cells, collapse
whitespace runs. -/
def cleanRow6 (r : List (Option String)) : List String :=
  (r.filterMap id).map collapseWS

/-- Start marker test of `six_month_market_summary`:
`table[0] is not None and "SECTION 13: ..." in table[0]` (first cell only). -/
def markerHit (r : List (Option String)) : Bool :=
  match r.head? with
  | some (some c) => strContains c sectorSentinel
  | _ => false

/-- `sixSentinel` is matched by list membership (`in clean_table`), i.e.
exact cell equality after whitespace collapsing. -/
def sixSentinel : String := "SECTION 14: DEFAULTER SEGMENT"

/-- The row loop of `six_month_market_summary` with its `start_appending`
flag; an empty row raises `IndexError` at `table[0]` (`none`). -/
def sixLoop : List (List (Option String)) → Bool → Option (List (List String))
  | [], _ => some []
  | r :: rs, started =>
    if r.isEmpty then none
    else
      let st := started || markerHit r
      if st then
        let c := cleanRow6 r
        if c.contains sixSentinel then some [c]
        else (sixLoop rs st).map (fun tt => c :: tt)
      else sixLoop rs st

/-- The seven fixed column names assigned by `six_month_market_summary`. -/
def sixCols7 : List String :=
  ["Month at the Close", "Listed Capital(million)", "Market Capitalization(million)",
   "Turnover In Ready MRKT", "Turnover In Future MRKT", "KSE 100 Index", "KSE All Share"]

/-- Table construction of `six_month_market_summary`: building the
seven-column frame raises when a collected row is wider than 7; shorter
rows are padded with `NaN` and then removed by `dropna`; commas are
stripped afterwards. -/
def sixCore (t : RawTable) : Option DF :=
  (sixLoop t false).bind (fun tt =>
    if tt.any (fun r => 7 < r.length) then none
    else
      some ⟨sixCols7,
            (tt.filter (fun r => r.length == 7)).map (fun r => r.map (fun c => some (remComma c)))⟩)

/-- `PDFExtraction.six_month_market_summary` on `pages[nums[0]-1]`'s single
extracted table; exceptions are caught and logged (`none`). -/
def six_month_market_summary (doc : PDoc) (nums : List Nat) : Option DF :=
  match nums.get? 0 with
  | none => none
  | some a => ((doc.pages.get? (a - 1)).bind (fun p => p.tables.head?)).bind sixCore

/-- `PDFExtraction.process_table`: dispatch each located section name to its
extractor (`extract_event_table` is total, wrapped in `some`). -/
def process_table (doc : PDoc) : List (String × Option DF) :=
  (extract_page_numbers doc).filterMap (fun kv =>
    if kv.1 = "SECTION 1: MACRO VIEW OF THE MARKET" then
      some (kv.1, extract_macro_view doc kv.2)
    else if kv.1 = "SECTION 5: BOARD MEETINGS" then
      some (kv.1, some (extract_event_table doc kv.2))
    else if kv.1 = "SECTION 12: ALL SHARES INDEX REPORT (SECTOR WISE)" then
      some (kv.1, extract_sector_table doc kv.2)
    else if kv.1 = "SECTION 13: MAIN BOARD DATA FOR THE LAST 6 MONTHS" then
      some (kv.1, six_month_market_summary doc kv.2)
    else none)

/-- One parsed row of the pipe-delimited market summary, after
`DataPreprocessor.get_market_summary` truncates to ten columns and names
them `[date, Symbol, Sector Code, Name, open, high, low, close, volume,
LCDP]` (the `Sector Code` column is integer-typed by pandas). -/
structure MSRow where
  date : String
  symbol : String
  sectorCode : Int
  name : String
  openPrice : String
  high : String
  low : String
  closePrice : String
  volume : String
  lcdp : String
deriving DecidableEq

/-- `DataPreprocessor.get_market_summary` partitioning step: ready market is
`Sector Code != 40 and != 41`, future market is `== 40 or == 41`.  The
CSV reading and `to_datetime` conversion are the upstream I/O producing
`rows`. -/
def get_market_summary (rows : List MSRow) : List MSRow × List MSRow :=
  (rows.filter (fun r => decide (r.sectorCode ≠ 40 ∧ r.sectorCode ≠ 41)),
   rows.filter (fun r => decide (r.sectorCode = 40 ∨ r.sectorCode = 41)))

/-- `df.isnull().any(axis=1)` for one row. -/
def rowHasNull (r : List (Option String)) : Bool := r.any (fun c => c.isNone)

/-- Cell of the first column with the given (stripped) label. -/
def colCell (scols : List String) (r : List (Option String)) (name : String) : Option String :=
  match scols.findIdx? (fun c => c = name) with
  | some i => cellAt r i
  | none => none

/-- The fixed reordered column list `get_omts` gives its first table. -/
def omtsCols9 : List String :=
  ["Date", "SETTLEMENT DATE", "BUYER", "SELLER", "SYMBOL CODE", "COMPANY",
   "TURNOVER", "RATE", "VALUES"]

/-- The original columns the reorder of `get_omts` requires to exist. -/
def omtsReq : List String :=
  ["Date", "SETTLEMENT DATE", "SYMBOL CODE", "COMPANY", "TURNOVER", "RATE", "VALUES"]

/-- Python `s.split(" ")`: split on every single space, keeping empty
parts (`"".split(" ") == [""]`). -/
def splitOnSpaceAux : List Char → List Char → List String
  | [], cur => [⟨cur.reverse⟩]
  | c :: rest, cur =>
    if c = ' ' then ⟨cur.reverse⟩ :: splitOnSpaceAux rest []
    else splitOnSpaceAux rest (c :: cur)

/-- Python `s.split(" ")` on a string. -/
def splitOnSpace (s : String) : List String := splitOnSpaceAux s.data []

/-- One row of `df1` after `get_omts` splits `MEMBER CODE` on single spaces
(`str.split(" ", expand=True)`, positions 1 and 3 kept as `BUYER` and
`SELLER`) and reorders the columns. -/
def omtsRowT (scols : List String) (mi : Nat) (r : List (Option String)) : List (Option String) :=
  let parts := splitOnSpace ((cellAt r mi).getD "")
  [colCell scols r "Date", colCell scols r "SETTLEMENT DATE", parts.get? 1, parts.get? 3,
   colCell scols r "SYMBOL CODE", colCell scols r "COMPANY", colCell scols r "TURNOVER",
   colCell scols r "RATE", colCell scols r "VALUES"]

/-- `DataPreprocessor.get_omts` on the row grid `pd.read_csv(...,
skiprows=4)` produced (header row in `cols`, data rows in `rows`).
The first null-bearing row is the separator; `df1 = rows[:sep]`,
`df2 = rows[sep+2:]`.  The `expand=True` split must yield exactly four
columns (pandas uses the widest row) and the reorder needs all its labels;
any failure is re-raised (`Except.error`), including the `IndexError` when
no null row exists. -/
def get_omts (cols : List String) (rows : List (List (Option String))) :
    Except String (DF × DF) :=
  match rows.findIdx? rowHasNull with
  | none => Except.error "Error: index 0 is out of bounds"
  | some s =>
    let scols := cols.map pyStrip
    match scols.findIdx? (fun c => c = "MEMBER CODE") with
    | none => Except.error "Error: MEMBER CODE"
    | some mi =>
      let a := rows.take s
      if (a.map (fun r => (splitOnSpace ((cellAt r mi).getD "")).length)).foldl max 0 = 4 then
        if omtsReq.all (fun c => scols.contains c) then
          Except.ok (⟨omtsCols9, a.map (omtsRowT scols mi)⟩, ⟨scols, rows.drop (s + 2)⟩)
        else Except.error "Error: column missing"
      else Except.error "Error: Columns must be same length as key"

/-- Scan for the lazily matched `)` of `re.sub(r'\((.*?)\)', ...)`: the
match fails if a newline (which `.` cannot cross) or the end arrives
first.  On success: the inner text and the remainder after the `)`. -/
def findCloseParen : List Char → Option (List Char × List Char)
  | [] => none
  | c :: rest =>
    if c = ')' then some ([], rest)
    else if c = '\n' then none
    else
      match findCloseParen rest with
      | some (inner, after) => some (c :: inner, after)
      | none => none

/-- `re.sub(r'\((.*?)\)', r'-\1', s)` with explicit fuel (each step consumes
at least one character, so `s.length` fuel always suffices); scanning
resumes after a replaced match. -/
def parenSubAux : Nat → List Char → List Char
  | 0, l => l
  | _ + 1, [] => []
  | fuel + 1, c :: rest =>
    if c = '(' then
      match findCloseParen rest with
      | some (inner, after) => '-' :: (inner ++ parenSubAux fuel after)
      | none => c :: parenSubAux fuel rest
    else c :: parenSubAux fuel rest

/-- `re.sub(r'\((.*?)\)', r'-\1', s)` on a string. -/
def parenSub (s : String) : String := ⟨parenSubAux s.data.length s.data⟩

/-- `re.sub(r'[^\d.-]', '', s)`: keep only digits, dots and minus signs. -/
def keepNum (s : String) : String :=
  ⟨s.data.filter (fun c => c.isDigit || c = '.' || c = '-')⟩

/-- Digit content of an unsigned `float()` literal over digits and at most
one dot (the only shapes that survive `keepNum`): the concatenated digit
value and the number of fractional digits; no digit at all is unparsable. -/
def magParts (l : List Char) : Option (Nat × Nat) :=
  if l ≠ [] ∧ l.all (fun c => c.isDigit || c = '.') ∧
      (l.filter (fun c => c = '.')).length ≤ 1 ∧ 1 ≤ (l.filter Char.isDigit).length then
    let ip := l.takeWhile (fun c => c ≠ '.')
    let fp := (l.dropWhile (fun c => c ≠ '.')).drop 1
    some (digitsToNat (ip ++ fp), fp.length)
  else none

/-- Unsigned `float()` literal value. -/
def pyFloatMag (l : List Char) : Option Rat :=
  (magParts l).map (fun p => (p.1 : Rat) / ((10 : Rat) ^ p.2))

/-- Python `float()` on a `keepNum` residue: one optional leading minus,
then an unsigned literal; anything else raises `ValueError` (`none`). -/
def pyFloat? (s : String) : Option Rat :=
  if s.data.head? = some '-' then (pyFloatMag (s.data.drop 1)).map (fun x => -x)
  else pyFloatMag s.data

/-- `FIPIDataProcessor.clean_numeric_re`: null stays null; `(X)` becomes
`-X`; all characters but digits, `.` and `-` are stripped; the residue is
parsed as a float, unparsable giving null.  Total — the `ValueError` is
caught in the source. -/
def clean_numeric_re (v : Option String) : Option Rat :=
  match v with
  | none => none
  | some s => pyFloat? (keepNum (parenSub s))

/-- A CSV file routed to `get_omts`: the header and data rows that
`pd.read_csv(file, skiprows=4)` yields for it. -/
structure OmtsIn where
  cols : List String
  rows : List (List (Option String))
deriving DecidableEq

/-- One element appended to `df_list` by `Execution.execution_by_extension`:
the `.z` branch appends `get_market_summary`'s result (possibly `None`),
the `.csv` branch a `get_omts` pair, the `.xls` branch an optional frame,
and the `.pdf` branch always `None` (`get_quotes` has no return value). -/
inductive Entry where
  | zEntry (r : Option (List MSRow × List MSRow))
  | csvEntry (r : DF × DF)
  | xlsEntry (r : Option DF)
  | pdfEntry
deriving DecidableEq

/-- One `(extension, files)` item of the `get_files()` dict.
`zG`: the market-summary rows read back after `read_zip_file`, `none` for
any read failure (all caught inside `get_market_summary`).
`csvG`: per-file `get_omts` input.
`xlsG`: per-file `(stem starts with "fut_opn_int", Excel outcome)`; the
Excel parsing itself is I/O: `get_open_interest` catches its failures
(`none` outcome stays an entry) while `get_indhist` hits an unbound `df`
at its `return` and re-raises.
`pdfG`: per-file opened document, `none` when `pdfplumber.open` re-raises
`FileNotFoundError`. -/
inductive FGroup where
  | zG (content : Option (List MSRow))
  | csvG (files : List OmtsIn)
  | xlsG (files : List (Bool × Option DF))
  | pdfG (files : List (Option PDoc))
deriving DecidableEq

/-- `.csv` branch of the dispatcher loop: `get_omts` errors escape the
per-file loop (second component: an exception aborted the run). -/
def runCsvFiles : List OmtsIn → List Entry × Bool
  | [] => ([], false)
  | f :: fs =>
    match get_omts f.cols f.rows with
    | Except.error _ => ([], true)
    | Except.ok p =>
      let (es, ab) := runCsvFiles fs
      (Entry.csvEntry p :: es, ab)

/-- `.xls` branch: `fut_opn_int` files never raise (`get_open_interest`
catches), other stems raise on a failed read (`get_indhist`). -/
def runXlsFiles : List (Bool × Option DF) → List Entry × Bool
  | [] => ([], false)
  | (isFut, content) :: fs =>
    if isFut then
      let (es, ab) := runXlsFiles fs
      (Entry.xlsEntry content :: es, ab)
    else
      match content with
      | none => ([], true)
      | some d =>
        let (es, ab) := runXlsFiles fs
        (Entry.xlsEntry (some d) :: es, ab)

/-- `.pdf` branch: a missing file re-raises from `open_pdf_file`; otherwise
`get_quotes` runs the extraction, prints, and returns `None`. -/
def runPdfFiles : List (Option PDoc) → List Entry × Bool
  | [] => ([], false)
  | none :: _ => ([], true)
  | some _ :: fs =>
    let (es, ab) := runPdfFiles fs
    (Entry.pdfEntry :: es, ab)

/-- One iteration of the extension loop of `execution_by_extension`. -/
def runGroup : FGroup → List Entry × Bool
  | FGroup.zG content => ([Entry.zEntry (content.map get_market_summary)], false)
  | FGroup.csvG fs => runCsvFiles fs
  | FGroup.xlsG fs => runXlsFiles fs
  | FGroup.pdfG fs => runPdfFiles fs

/-- The extension loop: the `try` wraps the whole loop, so the first raised
exception ends every remaining iteration and the collected list is
returned as is. -/
def execGo : List FGroup → List Entry
  | [] => []
  | g :: gs =>
    let (es, ab) := runGroup g
    if ab then es else es ++ execGo gs

/-- `Execution.execution_by_extension` over the files grouped by
extension. -/
def execution_by_extension (groups : List FGroup) : List Entry := execGo groups

/-- Spec-side per-group entry list: every file contributes its entry,
failed-but-caught parses contributing a null entry. -/
def groupEntriesSpec : FGroup → List Entry
  | FGroup.zG c => [Entry.zEntry (c.map get_market_summary)]
  | FGroup.csvG fs => fs.filterMap (fun f => ((get_omts f.cols f.rows).toOption).map Entry.csvEntry)
  | FGroup.xlsG fs => fs.map (fun fc => Entry.xlsEntry fc.2)
  | FGroup.pdfG fs => fs.map (fun _ => Entry.pdfEntry)

/-- Whether some file of the group raises out of its parser. -/
def groupRaises : FGroup → Bool
  | FGroup.zG _ => false
  | FGroup.csvG fs => fs.any (fun f => !(get_omts f.cols f.rows).toOption.isSome)
  | FGroup.xlsG fs => fs.any (fun fc => !fc.1 && fc.2.isNone)
  | FGroup.pdfG fs => fs.any (fun f => f.isNone)

/-- Prefix up to and including the first element satisfying `p`. -/
def takeUntilIncl (p : α → Bool) : List α → List α
  | [] => []
  | a :: as => if p a then [a] else a :: takeUntilIncl p as

/-- Spec-side span of `six_month_market_summary`: cleaned rows from the
first marker row through the first sentinel row (inclusive). -/
def sixSpanSpec (t : RawTable) : List (List String) :=
  takeUntilIncl (fun c => c.contains sixSentinel)
    ((t.dropWhile (fun r => !markerHit r)).map cleanRow6)

/-- Spec-side per-page table of `extract_sector_table`: the cleaned rows of
the page's tables in order, up to (excluding) the page's first
sentinel-bearing row, post-processed as in the source. -/
def sectorPageSpec (p : Page) : Option DF :=
  buildSectorDF (((p.tables.flatten).map rowClean).takeWhile (fun c => !rowHasSub sectorSentinel c))

/-- Spec-side page loop over `sectorPageSpec`. -/
def sectorSpecLoop (doc : PDoc) : List Nat → DF → Option DF
  | [], acc => some acc
  | i :: rest, acc =>
    match doc.pages.get? i with
    | none => none
    | some p =>
      match sectorPageSpec p with
      | none => none
      | some df => sectorSpecLoop doc rest (pdConcat acc df)

/-- Spec-side `extract_sector_table`: every page of the range contributes
independently. -/
def extract_sector_spec (doc : PDoc) (nums : List Nat) : Option DF :=
  match nums.get? 0, nums.get? 1 with
  | some a, some b => sectorSpecLoop doc (List.range' (a - 1) (b - (a - 1))) emptyDF
  | _, _ => none

/-- Spec-side per-page tables of the multi-page `extract_event_table`
branch over a list of page indices, `none` when any page fails. -/
def eventPagesSpec (doc : PDoc) : List Nat → Option (List DF)
  | [] => some []
  | i :: rest =>
    match (doc.pages.get? i).bind (fun p => eventPageSpec (extractTable p)) with
    | none => none
    | some d => (eventPagesSpec doc rest).map (fun ds => d :: ds)

/-- Spec-side per-page tables of the multi-page `extract_event_table`
branch over the page range, `none` when any page of the range fails. -/
def eventRangeSpec (doc : PDoc) (a b : Nat) : Option (List DF) :=
  eventPagesSpec doc (List.range' (a - 1) (b - (a - 1)))

/-- A five-page document whose page of 0-based index 2 holds the board
meetings header, no other page holding any target header. -/
def exDocC2 : PDoc :=
  ⟨none, [⟨"cover page", []⟩, ⟨"intro", []⟩, ⟨"SECTION 5: BOARD MEETINGS", []⟩,
          ⟨"misc", []⟩, ⟨"end", []⟩]⟩

/-- Synthetic macro-view table: four columns, four rows, the last row
bearing the macro sentinel. -/
def exMacroTable : RawTable :=
  [[some "Turnover", some "10", some "x", some "20"],
   [some "Value", some "30", some "y", some "40"],
   [some "Trades", some "50", some "z", some "60"],
   [some "PUBLICLY ISSUED DEBT SECURITIES"]]

/-- Document carrying `exMacroTable` on the page of 0-based index 1. -/
def exDocC4 : PDoc := ⟨some "D:20240123", [⟨"cover", []⟩, ⟨"macro", [exMacroTable]⟩]⟩

/-- First sector page: a header row, one data row, then the sentinel row. -/
def exSectorT1 : RawTable :=
  [[some "idx", some "Sector Name", some "Val"],
   [some "1", some "ABC", some "10"],
   [some "SECTION 13: MAIN BOARD DATA FOR THE LAST 6 MONTHS"]]

/-- Second sector page: header row and one data row, after the sentinel
page. -/
def exSectorT2 : RawTable :=
  [[some "idx", some "Sector Name", some "Val"],
   [some "2", some "XYZ", some "20"]]

/-- Two sector pages at 0-based indices 1 and 2; the sentinel sits on the
first of them. -/
def exDocC3 : PDoc := ⟨none, [⟨"cover", []⟩, ⟨"s1", [exSectorT1]⟩, ⟨"s2", [exSectorT2]⟩]⟩

/-- Six-month table: one noise row, the marker row, one full 7-cell data
row, the `SECTION 14` sentinel row. -/
def exSixTable : RawTable :=
  [[some "INTRO", none],
   [some "SECTION 13: MAIN BOARD DATA FOR THE LAST 6 MONTHS"],
   [some "Jan-24", some "1", some "2", some "3", some "4", some "5", some "6"],
   [some "SECTION 14: DEFAULTER SEGMENT"]]

/-- Document carrying `exSixTable` on the page of 0-based index 1. -/
def exDocC5 : PDoc := ⟨none, [⟨"c", []⟩, ⟨"six", [exSixTable]⟩]⟩

/-- A `get_omts` input with no null-bearing row at all. -/
def exBadOmts : OmtsIn := ⟨["A"], [[some "x"]]⟩

/-- A trivially well-formed Excel outcome. -/
def exGoodDF : DF := ⟨["Symbol"], [[some "HBL"]]⟩

/-- A market-summary row with the given sector code. -/
def mkMSRow (sec : Int) : MSRow :=
  ⟨"2024-01-23", "HBL", sec, "Habib Bank", "1", "2", "3", "4", "5", "6"⟩

/-- Header of the composite OMTS CSV example. -/
def exOmtsCols : List String :=
  ["Date", "SETTLEMENT DATE", "MEMBER CODE", "SYMBOL CODE", "COMPANY",
   "TURNOVER", "RATE", "VALUES"]

/-- A regular OMTS data row; the `MEMBER CODE` cell splits into four parts. -/
def mkOmtsRow (i : Nat) : List (Option String) :=
  [some "2024-01-23", some "2024-01-25", some ("001 BUY" ++ toString i ++ " 002 SEL" ++ toString i),
   some "HBL", some "Habib Bank", some "100", some "9.5", some "950"]

/-- Twelve OMTS data rows whose first (and only) null-bearing row sits at
index 5. -/
def exOmtsRows : List (List (Option String)) :=
  (List.range 12).map (fun i =>
    if i = 5 then [some "x", none, some "a b c d", some "", some "", some "", some "", some ""]
    else mkOmtsRow i)

/-- C1 counterexample: the claim says a parse failure on one file leaves the
dispatcher processing every remaining file.  With one malformed OMTS CSV
(no null separator row, so `get_omts` re-raises) followed by a well-formed
`.xls` file, the outer `try` of `execution_by_extension` catches the
exception outside the loop: the run ends with no entry at all for the
remaining file. -/
theorem execution_one_bad_csv_stops_run :
    execution_by_extension [FGroup.csvG [exBadOmts], FGroup.xlsG [(true, some exGoodDF)]] = [] ∧
    Entry.xlsEntry (some exGoodDF) ∉
      execution_by_extension [FGroup.csvG [exBadOmts], FGroup.xlsG [(true, some exGoodDF)]] := by
  decide

/-- C2 counterexample: on the five-page document with the board-meetings
header on 0-based page index 2, `extract_page_numbers` records `[3]` (the
page's 1-based physical index), not the `[4]` the claim states. -/
theorem section_locator_page_offset_counterexample :
    lookupPages (extract_page_numbers exDocC2) "SECTION 5: BOARD MEETINGS" = [3] ∧
    lookupPages (extract_page_numbers exDocC2) "SECTION 5: BOARD MEETINGS" ≠ [4] := by
  decide

/-- C3 counterexample: the sector sentinel on the first page of the range
does not stop the page loop; the row `[XYZ, 20]` of the following page
still reaches the output, contradicting the claim that no row from any
page after the sentinel row is ever appended. -/
theorem sector_sentinel_counterexample :
    extract_sector_table exDocC3 [2, 3] =
      some ⟨["Sector Name", "Val"], [[some "ABC", some "10"], [some "XYZ", some "20"]]⟩ ∧
    [some "XYZ", some "20"] ∈ ((extract_sector_table exDocC3 [2, 3]).map DF.rows).getD [] := by
  decide

/-- C4 counterexample: on the synthetic four-column, four-row macro page
whose last row bears the sentinel, the extractor emits two output rows
(`Main Board` and `GEM Board`), not the single row the claim states. -/
theorem macro_view_two_rows_counterexample :
    (extract_macro_view exDocC4 [2]).map (fun d => d.rows.length) = some 2 ∧
    (extract_macro_view exDocC4 [2]).map (fun d => d.rows.length) ≠ some 1 := by
  decide

/-- C4 amended: the synthetic 4-column, 4-row macro-view page (trailing
sentinel row) yields exactly two rows — the transposed `Main Board` and
`GEM Board` columns — under 6 columns: `index`, `c_ex_id`, `Date`, plus
the three retained rows' first cells as headers. -/
theorem macro_view_roundtrip_amended :
    extract_macro_view exDocC4 [2] =
      some ⟨["index", "c_ex_id", "Date", "Turnover", "Value", "Trades"],
            [[some "Main Board", some "1", some "2024-01-23", some "10", some "30", some "50"],
             [some "GEM Board", some "1", some "2024-01-23", some "20", some "40", some "60"]]⟩ := by
  decide

/-- C5 counterexample: the marker row (a single cell) is appended by the
row loop but then removed by `dropna` after padding to the seven-column
frame — the output keeps only the full seven-cell row, contradicting the
claim that every row from the marker row (inclusive) is included. -/
theorem six_month_marker_row_dropped_counterexample :
    six_month_market_summary exDocC5 [2] =
      some ⟨sixCols7, [[some "Jan-24", some "1", some "2", some "3", some "4", some "5", some "6"]]⟩ ∧
    [some "SECTION 13: MAIN BOARD DATA FOR THE LAST 6 MONTHS"] ∉
      ((six_month_market_summary exDocC5 [2]).map DF.rows).getD [] := by
  decide

/-- C7: the market-summary split partitions the input rows: membership in
the future-market table is exactly `Sector Code ∈ {40, 41}`, membership in
the ready-market table exactly its negation, the two tables are disjoint,
and together they are a permutation of the input. -/
theorem market_summary_partition (rows : List MSRow) :
    (∀ r ∈ rows,
      (r ∈ (get_market_summary rows).2 ↔ (r.sectorCode = 40 ∨ r.sectorCode = 41)) ∧
      (r ∈ (get_market_summary rows).1 ↔ ¬(r.sectorCode = 40 ∨ r.sectorCode = 41))) ∧
    (∀ r : MSRow, ¬(r ∈ (get_market_summary rows).1 ∧ r ∈ (get_market_summary rows).2)) ∧
    ((get_market_summary rows).1 ++ (get_market_summary rows).2).Perm rows := by
  refine ⟨?_, ?_, ?_⟩
  · intro r hr
    constructor
    · simp [get_market_summary, List.mem_filter, hr]
    · simp [get_market_summary, List.mem_filter, hr]
  · intro r hr
    obtain ⟨h1, h2⟩ := hr
    simp [get_market_summary, List.mem_filter] at h1 h2
    tauto
  · have hcong :
        rows.filter (fun r => decide (r.sectorCode ≠ 40 ∧ r.sectorCode ≠ 41)) =
        rows.filter (fun r => !(decide (r.sectorCode = 40 ∨ r.sectorCode = 41))) := by
      apply List.filter_congr
      intro r _
      rw [← decide_not, decide_eq_decide]
      tauto
    have hperm := List.filter_append_perm
      (fun r : MSRow => decide (r.sectorCode = 40 ∨ r.sectorCode = 41)) rows
    have hstep : (get_market_summary rows).1 ++ (get_market_summary rows).2 =
        rows.filter (fun r => !(decide (r.sectorCode = 40 ∨ r.sectorCode = 41))) ++
        rows.filter (fun r => decide (r.sectorCode = 40 ∨ r.sectorCode = 41)) := by
      simp [get_market_summary, hcong]
    rw [hstep]
    exact List.Perm.trans List.perm_append_comm hperm

/-- Witness for C7 at a concrete two-row input. -/
theorem market_summary_partition_witness :
    mkMSRow 40 ∈ (get_market_summary [mkMSRow 40, mkMSRow 10]).2 ∧
    mkMSRow 10 ∈ (get_market_summary [mkMSRow 40, mkMSRow 10]).1 := by
  have h := market_summary_partition [mkMSRow 40, mkMSRow 10]
  exact ⟨((h.1 (mkMSRow 40) (by decide)).1).mpr (by decide),
         ((h.1 (mkMSRow 10) (by decide)).2).mpr (by decide)⟩

/-- When the scanned text holds no `)` and no newline, the lazy close-paren
search consumes exactly the final appended `)`. -/
theorem findClose_wrap (l : List Char) (h : ∀ c ∈ l, c ≠ ')' ∧ c ≠ '\n') :
    findCloseParen (l ++ [')']) = some (l, []) := by
  induction l with
  | nil => simp [findCloseParen]
  | cons c rest ih =>
    have hc := h c (List.mem_cons_self c rest)
    simp [findCloseParen, hc.1, hc.2,
          ih (fun x hx => h x (List.mem_cons_of_mem c hx))]

/-- The regex substitution turns a fully wrapped `(X)` into `-X` when `X`
holds no `)` and no newline. -/
theorem parenSub_wrap (X : String) (h : ∀ c ∈ X.data, c ≠ ')' ∧ c ≠ '\n') :
    parenSub ("(" ++ X ++ ")") = "-" ++ X := by
  have hdata : ("(" ++ X ++ ")").data = '(' :: (X.data ++ [')']) := by
    simp [String.data_append]
  have hmk : ("-" ++ X).data = '-' :: X.data := by simp [String.data_append]
  unfold parenSub
  rw [hdata]
  have hlen : ('(' :: (X.data ++ [')'])).length = X.data.length + 1 + 1 := by simp
  rw [hlen]
  have hstep : parenSubAux (X.data.length + 1 + 1) ('(' :: (X.data ++ [')'])) =
      '-' :: X.data := by
    simp only [parenSubAux, if_pos rfl]
    rw [findClose_wrap X.data h]
    simp [parenSubAux]
  rw [hstep]
  exact congrArg String.mk hmk.symm

/-- `keepNum` keeps a leading minus. -/
theorem keepNum_minus (X : String) : keepNum ("-" ++ X) = ⟨'-' :: (keepNum X).data⟩ := by
  simp [keepNum, String.data_append]

/-- One leading minus negates the magnitude parse when the rest holds no
further minus sign. -/
theorem pyFloat_neg (t : String) (hn : '-' ∉ t.data) :
    pyFloat? ⟨'-' :: t.data⟩ = (pyFloat? t).map (fun x => -x) := by
  have hhead : t.data.head? ≠ some '-' := by
    cases ht : t.data with
    | nil => simp
    | cons c rest =>
      have : c ≠ '-' := by
        intro hc
        exact hn (ht ▸ (hc ▸ List.mem_cons_self c rest))
      simp [this]
  simp [pyFloat?, hhead]

/-- C9: `clean_numeric_re` is total; null gives null, `"(1,234.5)"` gives
`-1234.5`, the empty string and `"abc"` give null, and generally a
parenthesis-wrapped value `(X)` (no stray `)`/newline/minus inside) gives
the negation of the value `X` itself cleans to. -/
theorem clean_numeric_spec :
    clean_numeric_re none = none ∧
    clean_numeric_re (some "(1,234.5)") = some (-1234.5 : Rat) ∧
    clean_numeric_re (some "") = none ∧
    clean_numeric_re (some "abc") = none ∧
    (∀ (X : String) (x : Rat),
      (∀ c ∈ X.data, c ≠ ')' ∧ c ≠ '\n' ∧ c ≠ '-') →
      pyFloat? (keepNum X) = some x →
      clean_numeric_re (some ("(" ++ X ++ ")")) = some (-x)) := by
  refine ⟨by decide, ?_, by decide, by decide, ?_⟩
  · have h1 : keepNum (parenSub "(1,234.5)") = "-1234.5" := by decide
    have h3 : ("-1234.5" : String).data.head? = some '-' := by decide
    have h2 : magParts (("-1234.5" : String).data.drop 1) = some (12345, 1) := by decide
    show pyFloat? (keepNum (parenSub "(1,234.5)")) = some (-1234.5 : Rat)
    rw [h1]
    unfold pyFloat?
    rw [if_pos h3]
    unfold pyFloatMag
    rw [h2]
    norm_num
  · intro X x h hparse
    have h2 : ∀ c ∈ X.data, c ≠ ')' ∧ c ≠ '\n' := fun c hc => ⟨(h c hc).1, (h c hc).2.1⟩
    have hminus : '-' ∉ (keepNum X).data := by
      intro hm
      have hmem : '-' ∈ X.data := (List.mem_filter.mp hm).1
      exact (h _ hmem).2.2 rfl
    show pyFloat? (keepNum (parenSub ("(" ++ X ++ ")"))) = some (-x)
    rw [parenSub_wrap X h2, keepNum_minus, pyFloat_neg _ hminus, hparse]
    rfl

/-- Witness for C9’s parenthesis clause at `X = "2"`. -/
theorem clean_numeric_spec_witness :
    clean_numeric_re (some "(2)") = some (-2 : Rat) := by
  have hparse : pyFloat? (keepNum "2") = some 2 := by
    have hm : magParts (keepNum "2").data = some (2, 0) := by decide
    have hh : ¬ ((keepNum "2").data.head? = some '-') := by decide
    unfold pyFloat?
    rw [if_neg hh]
    unfold pyFloatMag
    rw [hm]
    norm_num
  have h := clean_numeric_spec.2.2.2.2 "2" 2 (by decide) hparse
  exact (by decide : ("(" ++ "2" ++ ")" : String) = "(2)") ▸ h

/-- Looking up `pat` ignores a bump applied to entries keyed `q ≠ pat`. -/
theorem find?_map_bump (d : List (String × List Nat)) (pat q : String) (n : Nat)
    (hq : q ≠ pat) :
    (d.map (fun kv => if kv.1 = q then (kv.1, kv.2 ++ [n]) else kv)).find?
        (fun kv => kv.1 = pat) =
      d.find? (fun kv => kv.1 = pat) := by
  induction d with
  | nil => rfl
  | cons kv rest ih =>
    by_cases hk : kv.1 = pat
    · have hknq : ¬ (kv.1 = q) := fun h => hq (h.symm.trans hk)
      rw [List.map_cons, if_neg hknq, List.find?_cons_of_pos _ (by simpa using hk),
          List.find?_cons_of_pos _ (by simpa using hk)]
    · by_cases hkq : kv.1 = q
      · rw [List.map_cons, if_pos hkq, List.find?_cons_of_neg _ (by simpa using hk),
            List.find?_cons_of_neg _ (by simpa using hk)]
        exact ih
      · rw [List.map_cons, if_neg hkq, List.find?_cons_of_neg _ (by simpa using hk),
            List.find?_cons_of_neg _ (by simpa using hk)]
        exact ih

/-- Appending a hit for `pat` when `pat` is already a key bumps exactly the
`pat` entry. -/
theorem lookup_map_bump (d : List (String × List Nat)) (pat : String) (n : Nat)
    (h : d.any (fun kv => kv.1 = pat) = true) :
    lookupPages (d.map (fun kv => if kv.1 = pat then (kv.1, kv.2 ++ [n]) else kv)) pat =
      lookupPages d pat ++ [n] := by
  induction d with
  | nil => cases h
  | cons kv rest ih =>
    by_cases hk : kv.1 = pat
    · simp [lookupPages, List.find?_cons, hk]
    · have hrest : rest.any (fun kv => kv.1 = pat) = true := by
        simpa [List.any_cons, hk] using h
      simpa [lookupPages, List.find?_cons, hk] using ih hrest

/-- `addHit` appends `n` to the page list of its own pattern. -/
theorem lookup_addHit_self (d : List (String × List Nat)) (pat : String) (n : Nat) :
    lookupPages (addHit d pat n) pat = lookupPages d pat ++ [n] := by
  by_cases hany : d.any (fun kv => kv.1 = pat) = true
  · unfold addHit
    rw [if_pos hany]
    exact lookup_map_bump d pat n hany
  · have hnone : d.find? (fun kv => kv.1 = pat) = none := by
      rw [List.find?_eq_none]
      intro kv hkv hp
      exact hany (List.any_eq_true.mpr ⟨kv, hkv, hp⟩)
    unfold addHit
    rw [if_neg hany]
    simp [lookupPages, List.find?_append, hnone, List.find?_cons]

/-- `addHit` for another pattern leaves a pattern's page list unchanged. -/
theorem lookup_addHit_other (d : List (String × List Nat)) (q pat : String) (n : Nat)
    (hq : q ≠ pat) :
    lookupPages (addHit d q n) pat = lookupPages d pat := by
  unfold addHit
  by_cases hany : d.any (fun kv => kv.1 = q) = true
  · rw [if_pos hany]
    unfold lookupPages
    rw [find?_map_bump d pat q n hq]
  · rw [if_neg hany]
    unfold lookupPages
    rw [List.find?_append]
    have : ([(q, [n])].find? (fun kv => kv.1 = pat)) = none := by
      simp [List.find?_cons, hq]
    rw [this]
    cases d.find? (fun kv => kv.1 = pat) <;> rfl

/-- Hits recorded earlier survive later `addHit` calls. -/
theorem mem_lookup_addHit (d : List (String × List Nat)) (q pat : String) (n m : Nat)
    (h : m ∈ lookupPages d pat) : m ∈ lookupPages (addHit d q n) pat := by
  by_cases hq : q = pat
  · subst hq
    rw [lookup_addHit_self]
    exact List.mem_append_left _ h
  · rw [lookup_addHit_other d q pat n hq]
    exact h

/-- Hits recorded earlier survive one page's pattern fold. -/
theorem mem_lookup_foldHits (text : String) (n : Nat) (pats : List String) :
    ∀ (d : List (String × List Nat)) (pat : String) (m : Nat), m ∈ lookupPages d pat →
      m ∈ lookupPages
        (pats.foldl (fun acc q => if strContains text q then addHit acc q n else acc) d) pat := by
  induction pats with
  | nil => intro d pat m h; simpa using h
  | cons q rest ih =>
    intro d pat m h
    simp only [List.foldl_cons]
    apply ih
    by_cases hq : strContains text q = true
    · rw [if_pos hq]
      exact mem_lookup_addHit d q pat n m h
    · rw [if_neg hq]
      exact h

/-- A page whose text holds a target pattern records `n` for it. -/
theorem mem_lookup_foldHits_hit (text : String) (n : Nat) (pats : List String) :
    ∀ (d : List (String × List Nat)) (pat : String), pat ∈ pats →
      strContains text pat = true →
      n ∈ lookupPages
        (pats.foldl (fun acc q => if strContains text q then addHit acc q n else acc) d) pat := by
  induction pats with
  | nil => intro d pat h; cases h
  | cons q rest ih =>
    intro d pat hmem hhit
    simp only [List.foldl_cons]
    rcases List.mem_cons.mp hmem with hqp | hqp
    · subst hqp
      apply mem_lookup_foldHits text n rest
      rw [if_pos hhit, lookup_addHit_self]
      simp
    · exact ih _ pat hqp hhit

/-- Hits recorded earlier survive the page scan. -/
theorem mem_lookup_scan (pat : String) (m : Nat) :
    ∀ (ps : List Page) (n : Nat) (d : List (String × List Nat)),
      m ∈ lookupPages d pat → m ∈ lookupPages (scanPages ps n d) pat := by
  intro ps
  induction ps with
  | nil => intro n d h; exact h
  | cons p rest ih =>
    intro n d h
    exact ih (n + 1) _ (mem_lookup_foldHits p.text (n + 1) targetPatterns d pat m h)

/-- The page at relative position `j` of the scan started at counter `n`
records `n + j + 1` for every target pattern its text holds. -/
theorem scan_hit_mem (pat : String) (hpat : pat ∈ targetPatterns) :
    ∀ (ps : List Page) (j : Nat) (hj : j < ps.length) (n : Nat)
      (d : List (String × List Nat)),
      strContains (ps.get ⟨j, hj⟩).text pat = true →
      (n + j + 1) ∈ lookupPages (scanPages ps n d) pat := by
  intro ps
  induction ps with
  | nil => intro j hj; exact absurd hj (Nat.not_lt_zero j)
  | cons p rest ih =>
    intro j hj n d hhit
    cases j with
    | zero =>
      simp only [scanPages]
      apply mem_lookup_scan
      exact mem_lookup_foldHits_hit p.text (n + 1) targetPatterns d pat hpat
        (by simpa using hhit)
    | succ j' =>
      simp only [scanPages]
      have := ih j' (Nat.lt_of_succ_lt_succ hj) (n + 1) (pageHits d p.text (n + 1))
        (by simpa using hhit)
      have harith : n + 1 + j' + 1 = n + (j' + 1) + 1 := by omega
      rwa [harith] at this

/-- C2 amended: the board-meetings header on 0-based page index 2 of a
five-page document yields the page list `[3]`; in general, for every page
from the second physical page onward whose text holds a target header,
the page's 0-based index plus one — its 1-based physical index — is
appended to that header's list. -/
theorem section_locator_pages_amended :
    lookupPages (extract_page_numbers exDocC2) "SECTION 5: BOARD MEETINGS" = [3] ∧
    ∀ (doc : PDoc) (pat : String) (i : Nat) (hi : i < doc.pages.length),
      pat ∈ targetPatterns → 1 ≤ i →
      strContains (doc.pages.get ⟨i, hi⟩).text pat = true →
      (i + 1) ∈ lookupPages (extract_page_numbers doc) pat := by
  refine ⟨by decide, ?_⟩
  intro doc pat i hi hpat h1 hhit
  unfold extract_page_numbers
  have hj : i - 1 < (doc.pages.drop 1).length := by
    simp only [List.length_drop]
    omega
  have hget : (doc.pages.drop 1).get ⟨i - 1, hj⟩ = doc.pages.get ⟨i, hi⟩ := by
    have harith : 1 + (i - 1) = i := by omega
    simp only [List.get_eq_getElem, List.getElem_drop, harith]
  have hmem := scan_hit_mem pat hpat (doc.pages.drop 1) (i - 1) hj 1 []
    (by rw [hget]; exact hhit)
  have harith2 : 1 + (i - 1) + 1 = i + 1 := by omega
  rwa [harith2] at hmem

/-- Witness for C2's general clause at the five-page example document. -/
theorem section_locator_pages_amended_witness :
    (3 : Nat) ∈ lookupPages (extract_page_numbers exDocC2) "SECTION 5: BOARD MEETINGS" := by
  exact section_locator_pages_amended.2 exDocC2 "SECTION 5: BOARD MEETINGS" 2
    (by decide) (by decide) (by decide) (by decide)

/-- Appending a strictly larger element keeps a page list strictly
increasing. -/
theorem chain_append_larger (l : List Nat) (m : Nat)
    (hc : List.Chain' (· < ·) l) (hb : ∀ x ∈ l, x < m) :
    List.Chain' (· < ·) (l ++ [m]) := by
  apply List.Chain'.append hc (List.chain'_singleton m)
  intro x hx y hy
  simp only [List.head?_cons, Option.mem_def, Option.some.injEq] at hy
  subst hy
  obtain ⟨hne, hlast⟩ := List.mem_getLast?_eq_getLast hx
  exact hb x (hlast ▸ List.getLast_mem hne)

/-- One page's pattern fold keeps every page list sorted and bounded by the
new counter value, given distinct patterns and lists bounded by the old
counter. -/
theorem foldHits_inv (text : String) (n : Nat) :
    ∀ (pats : List String) (d : List (String × List Nat)),
      pats.Nodup →
      (∀ kv ∈ d, List.Chain' (· < ·) kv.2 ∧ (∀ x ∈ kv.2, x ≤ n + 1) ∧
        (kv.1 ∈ pats → ∀ x ∈ kv.2, x ≤ n)) →
      ∀ kv ∈ pats.foldl (fun acc q => if strContains text q then addHit acc q (n + 1) else acc) d,
        List.Chain' (· < ·) kv.2 ∧ ∀ x ∈ kv.2, x ≤ n + 1 := by
  intro pats
  induction pats with
  | nil =>
    intro d _ hd kv hkv
    exact ⟨(hd kv hkv).1, (hd kv hkv).2.1⟩
  | cons q rest ih =>
    intro d hnd hd
    simp only [List.foldl_cons]
    have hqrest : q ∉ rest := (List.nodup_cons.mp hnd).1
    apply ih _ (List.nodup_cons.mp hnd).2
    intro kv hkv
    by_cases hq : strContains text q = true
    · rw [if_pos hq] at hkv
      unfold addHit at hkv
      by_cases hany : d.any (fun kv => kv.1 = q) = true
      · rw [if_pos hany] at hkv
        obtain ⟨kv0, hkv0, hfeq⟩ := List.mem_map.mp hkv
        have hold := hd kv0 hkv0
        by_cases hkey : kv0.1 = q
        · rw [if_pos hkey] at hfeq
          subst hfeq
          have hbound : ∀ x ∈ kv0.2, x ≤ n :=
            hold.2.2 (by rw [hkey]; exact List.mem_cons_self q rest)
          refine ⟨?_, ?_, ?_⟩
          · exact chain_append_larger kv0.2 (n + 1) hold.1
              (fun x hx => Nat.lt_succ_of_le (hbound x hx))
          · intro x hx
            rcases List.mem_append.mp hx with h | h
            · exact Nat.le_succ_of_le (hbound x h)
            · simp only [List.mem_singleton] at h
              omega
          · intro habs
            exact absurd (hkey ▸ habs) hqrest
        · rw [if_neg hkey] at hfeq
          subst hfeq
          exact ⟨hold.1, hold.2.1,
            fun hmem => hold.2.2 (List.mem_cons_of_mem q hmem)⟩
      · rw [if_neg hany] at hkv
        rcases List.mem_append.mp hkv with h | h
        · have hold := hd kv h
          exact ⟨hold.1, hold.2.1,
            fun hmem => hold.2.2 (List.mem_cons_of_mem q hmem)⟩
        · simp only [List.mem_singleton] at h
          subst h
          refine ⟨List.chain'_singleton _, ?_, ?_⟩
          · intro x hx
            simp only [List.mem_singleton] at hx
            omega
          · intro habs
            exact absurd habs hqrest
    · rw [if_neg hq] at hkv
      have hold := hd kv hkv
      exact ⟨hold.1, hold.2.1, fun hmem => hold.2.2 (List.mem_cons_of_mem q hmem)⟩

/-- The page scan keeps every page list strictly increasing (and bounded by
the final counter). -/
theorem scanPages_inv :
    ∀ (ps : List Page) (n : Nat) (d : List (String × List Nat)),
      (∀ kv ∈ d, List.Chain' (· < ·) kv.2 ∧ ∀ x ∈ kv.2, x ≤ n) →
      ∀ kv ∈ scanPages ps n d, List.Chain' (· < ·) kv.2 ∧ ∀ x ∈ kv.2, x ≤ n + ps.length := by
  intro ps
  induction ps with
  | nil =>
    intro n d hd kv hkv
    exact ⟨(hd kv hkv).1, fun x hx => by simpa using (hd kv hkv).2 x hx⟩
  | cons p rest ih =>
    intro n d hd kv hkv
    simp only [scanPages] at hkv
    have h1 : ∀ kv ∈ pageHits d p.text (n + 1),
        List.Chain' (· < ·) kv.2 ∧ ∀ x ∈ kv.2, x ≤ n + 1 := by
      apply foldHits_inv p.text n targetPatterns d (by decide)
      intro kv hkv
      exact ⟨(hd kv hkv).1, fun x hx => Nat.le_succ_of_le ((hd kv hkv).2 x hx),
             fun _ x hx => (hd kv hkv).2 x hx⟩
    have h2 := ih (n + 1) (pageHits d p.text (n + 1)) h1 kv hkv
    refine ⟨h2.1, fun x hx => ?_⟩
    have := h2.2 x hx
    simp only [List.length_cons]
    omega

/-- A page whose text lacks the pattern leaves that pattern's list
unchanged through the pattern fold. -/
theorem lookup_foldHits_nohit (text pat : String) (hno : strContains text pat = false)
    (n : Nat) :
    ∀ (pats : List String) (d : List (String × List Nat)),
      lookupPages
          (pats.foldl (fun acc q => if strContains text q then addHit acc q n else acc) d) pat =
        lookupPages d pat := by
  intro pats
  induction pats with
  | nil => intro d; rfl
  | cons q rest ih =>
    intro d
    simp only [List.foldl_cons]
    rw [ih]
    by_cases hq : strContains text q = true
    · rw [if_pos hq]
      apply lookup_addHit_other
      intro hqp
      rw [hqp, hno] at hq
      cases hq
    · rw [if_neg hq]

/-- Pages whose text lacks the pattern leave that pattern's list unchanged
through the scan. -/
theorem lookup_scan_nohit (pat : String) :
    ∀ (ps : List Page) (n : Nat) (d : List (String × List Nat)),
      (∀ p ∈ ps, strContains p.text pat = false) →
      lookupPages (scanPages ps n d) pat = lookupPages d pat := by
  intro ps
  induction ps with
  | nil => intro n d _; rfl
  | cons p rest ih =>
    intro n d hps
    simp only [scanPages]
    rw [ih (n + 1) _ (fun x hx => hps x (List.mem_cons_of_mem p hx))]
    unfold pageHits
    exact lookup_foldHits_nohit p.text pat (hps p (List.mem_cons_self p rest)) (n + 1)
      targetPatterns d

/-- C10: for every document, each section's recorded page list is strictly
increasing, and a section whose header text matches on no scanned page
(`pages[1:]`) yields the empty page list (the key is absent from the
dict). -/
theorem section_index_invariant (doc : PDoc) :
    (∀ kv ∈ extract_page_numbers doc, List.Chain' (· < ·) kv.2) ∧
    (∀ pat : String, (∀ p ∈ doc.pages.drop 1, strContains p.text pat = false) →
      lookupPages (extract_page_numbers doc) pat = []) := by
  constructor
  · intro kv hkv
    exact (scanPages_inv (doc.pages.drop 1) 1 [] (by simp) kv hkv).1
  · intro pat h
    unfold extract_page_numbers
    rw [lookup_scan_nohit pat (doc.pages.drop 1) 1 [] h]
    rfl

/-- Witness for C10 on the five-page example document: its single recorded
entry is strictly increasing and an unmatched header is absent. -/
theorem section_index_invariant_witness :
    List.Chain' (· < ·) [3] ∧
    lookupPages (extract_page_numbers exDocC2) "SECTION 1: MACRO VIEW OF THE MARKET" = [] := by
  exact ⟨(section_index_invariant exDocC2).1 ("SECTION 5: BOARD MEETINGS", [3]) (by decide),
         (section_index_invariant exDocC2).2 "SECTION 1: MACRO VIEW OF THE MARKET" (by decide)⟩

/-- Once the marker has been seen, the row loop collects every cleaned row
up to and including the first sentinel row. -/
theorem sixLoop_started (rows : RawTable) (hne : ∀ r ∈ rows, r.isEmpty = false) :
    sixLoop rows true =
      some (takeUntilIncl (fun c => c.contains sixSentinel) (rows.map cleanRow6)) := by
  induction rows with
  | nil => rfl
  | cons r rs ih =>
    have hr : r.isEmpty = false := hne r (List.mem_cons_self r rs)
    by_cases hs : sixSentinel ∈ cleanRow6 r
    · simp [sixLoop, hr, hs, takeUntilIncl]
    · simp [sixLoop, hr, hs, takeUntilIncl,
            ih (fun x hx => hne x (List.mem_cons_of_mem r hx))]

/-- Before the marker, rows are skipped; from the first marker row on, the
loop behaves as the started loop. -/
theorem sixLoop_unstarted (rows : RawTable) (hne : ∀ r ∈ rows, r.isEmpty = false) :
    sixLoop rows false =
      some (takeUntilIncl (fun c => c.contains sixSentinel)
        ((rows.dropWhile (fun r => !markerHit r)).map cleanRow6)) := by
  induction rows with
  | nil => rfl
  | cons r rs ih =>
    have hr : r.isEmpty = false := hne r (List.mem_cons_self r rs)
    by_cases hm : markerHit r = true
    · have hdrop : (r :: rs).dropWhile (fun r => !markerHit r) = r :: rs := by
        simp [List.dropWhile_cons, hm]
      rw [hdrop]
      by_cases hs : sixSentinel ∈ cleanRow6 r
      · simp [sixLoop, hr, hm, hs, takeUntilIncl]
      · simp [sixLoop, hr, hm, hs, takeUntilIncl,
              sixLoop_started rs (fun x hx => hne x (List.mem_cons_of_mem r hx))]
    · have hdrop : (r :: rs).dropWhile (fun r => !markerHit r) =
          rs.dropWhile (fun r => !markerHit r) := by
        simp [List.dropWhile_cons, hm]
      rw [hdrop]
      simp [sixLoop, hr, hm, ih (fun x hx => hne x (List.mem_cons_of_mem r hx))]

/-- C5 amended: with every raw row non-empty and no span row wider than 7,
the six-month extraction keeps no row before the first marker row, its
intermediate table is exactly the cleaned rows from the marker row through
the first sentinel row (inclusive), and the output — under the fixed
seven-column schema — consists of exactly the span rows with exactly seven
cells, commas stripped. -/
theorem six_month_span_amended (t : RawTable)
    (hne : ∀ r ∈ t, r.isEmpty = false)
    (h7 : ∀ c ∈ sixSpanSpec t, c.length ≤ 7) :
    sixCore t = some ⟨sixCols7,
      ((sixSpanSpec t).filter (fun r => r.length == 7)).map
        (fun r => r.map (fun c => some (remComma c)))⟩ := by
  unfold sixCore
  rw [sixLoop_unstarted t hne]
  have hnone : (sixSpanSpec t).any (fun r => decide (7 < r.length)) = false := by
    rw [List.any_eq_false]
    intro r hr
    simp only [decide_eq_true_eq, not_lt]
    exact h7 r hr
  have hfold : takeUntilIncl (fun c => c.contains sixSentinel)
      (List.map cleanRow6 (List.dropWhile (fun r => !markerHit r) t)) = sixSpanSpec t := rfl
  rw [hfold, Option.some_bind, hnone]
  simp

/-- Witness for C5's amended span theorem on the concrete example table. -/
theorem six_month_span_amended_witness :
    sixCore exSixTable = some ⟨sixCols7,
      [[some "Jan-24", some "1", some "2", some "3", some "4", some "5", some "6"]]⟩ := by
  rw [six_month_span_amended exSixTable (by decide) (by decide)]
  decide

/-- `takeWhile` over an append stops inside the first part when some
element of it fails the predicate. -/
theorem takeWhile_append_stop {α : Type} {p : α → Bool} :
    ∀ (l1 l2 : List α), l1.any (fun a => !p a) = true →
      (l1 ++ l2).takeWhile p = l1.takeWhile p := by
  intro l1
  induction l1 with
  | nil => intro l2 h; cases h
  | cons a l1' ih =>
    intro l2 h
    by_cases hp : p a = true
    · have h' : l1'.any (fun a => !p a) = true := by
        simpa [List.any_cons, hp] using h
      simp [List.takeWhile_cons, hp, ih l2 h']
    · simp [List.takeWhile_cons, hp]

/-- `takeWhile` over an append passes the whole first part when every
element of it satisfies the predicate. -/
theorem takeWhile_append_of_all {α : Type} {p : α → Bool} :
    ∀ (l1 l2 : List α), (∀ a ∈ l1, p a = true) →
      (l1 ++ l2).takeWhile p = l1 ++ l2.takeWhile p := by
  intro l1
  induction l1 with
  | nil => intro l2 _; rfl
  | cons a l1' ih =>
    intro l2 h
    have hp : p a = true := h a (List.mem_cons_self a l1')
    simp [List.takeWhile_cons, hp, ih l2 (fun x hx => h x (List.mem_cons_of_mem a hx))]

/-- `takeWhile` keeps a list all of whose elements pass. -/
theorem takeWhile_eq_self_of_all {α : Type} {p : α → Bool} :
    ∀ (l : List α), (∀ a ∈ l, p a = true) → l.takeWhile p = l := by
  intro l
  induction l with
  | nil => intro _; rfl
  | cons a l' ih =>
    intro h
    simp [List.takeWhile_cons, h a (List.mem_cons_self a l'),
          ih (fun x hx => h x (List.mem_cons_of_mem a hx))]

/-- The inner row loop of one table returns the cleaned prefix before the
first sentinel row, and flags whether a sentinel row occurred. -/
theorem collectRowsOne_eq (rows : RawTable) :
    collectRowsOne rows =
      ((rows.map rowClean).takeWhile (fun c => !rowHasSub sectorSentinel c),
       (rows.map rowClean).any (fun c => rowHasSub sectorSentinel c)) := by
  induction rows with
  | nil => rfl
  | cons r rs ih =>
    by_cases hs : rowHasSub sectorSentinel (rowClean r) = true
    · simp [collectRowsOne, hs, List.takeWhile_cons, List.any_cons]
    · simp [collectRowsOne, hs, ih, List.takeWhile_cons, List.any_cons]

/-- The nested table/row loops of one page collect exactly the cleaned
rows of all the page's tables, in order, up to (excluding) the first
sentinel-bearing row. -/
theorem collectSector_eq (ts : List RawTable) :
    collectSector ts =
      ((ts.flatten).map rowClean).takeWhile (fun c => !rowHasSub sectorSentinel c) := by
  induction ts with
  | nil => rfl
  | cons t rest ih =>
    simp only [collectSector, collectRowsOne_eq t, List.flatten_cons, List.map_append]
    by_cases hs : (t.map rowClean).any (fun c => rowHasSub sectorSentinel c) = true
    · rw [if_pos hs]
      rw [takeWhile_append_stop _ _ (by simpa using hs)]
    · rw [if_neg hs]
      have hall : ∀ c ∈ t.map rowClean, (!rowHasSub sectorSentinel c) = true := by
        intro c hc
        have := List.any_eq_false.mp (Bool.eq_false_iff.mpr hs) c hc
        simpa using this
      rw [takeWhile_append_of_all _ _ hall, takeWhile_eq_self_of_all _ hall, ih]

/-- The page loops agree: each page of the range is processed
independently of sentinel rows on the other pages. -/
theorem sectorLoop_eq_spec (doc : PDoc) :
    ∀ (idxs : List Nat) (acc : DF), sectorLoop doc idxs acc = sectorSpecLoop doc idxs acc := by
  intro idxs
  induction idxs with
  | nil => intro acc; rfl
  | cons i rest ih =>
    intro acc
    simp only [sectorLoop, sectorSpecLoop, sectorPageSpec]
    cases doc.pages.get? i with
    | none => rfl
    | some p =>
      show (match buildSectorDF (collectSector p.tables) with
            | none => none
            | some df => sectorLoop doc rest (pdConcat acc df)) =
          (match buildSectorDF
              (((p.tables.flatten).map rowClean).takeWhile
                (fun c => !rowHasSub sectorSentinel c)) with
            | none => none
            | some df => sectorSpecLoop doc rest (pdConcat acc df))
      rw [collectSector_eq p.tables]
      cases buildSectorDF
          (((p.tables.flatten).map rowClean).takeWhile
            (fun c => !rowHasSub sectorSentinel c)) with
      | none => rfl
      | some df => exact ih _

/-- C3 amended: a sentinel row stops row collection only within its own
page — each page of the range contributes exactly the cleaned rows of its
tables preceding that page's first sentinel row, and every page of the
range is processed regardless of sentinels on other pages: the extraction
equals the independent per-page spec fold. -/
theorem sector_sentinel_per_page_amended (doc : PDoc) (nums : List Nat) :
    extract_sector_table doc nums = extract_sector_spec doc nums := by
  unfold extract_sector_table extract_sector_spec
  cases nums.get? 0 with
  | none => rfl
  | some a =>
    cases nums.get? 1 with
    | none => rfl
    | some b => exact sectorLoop_eq_spec doc _ _

/-- The multi-page event loop is the fold of the per-page spec step over
the page range. -/
theorem eventLoopImpl_eq (doc : PDoc) :
    ∀ (idxs : List Nat) (acc : DF),
      eventLoopImpl doc idxs acc =
        (eventPagesSpec doc idxs).map (fun ds => ds.foldl pdConcat acc) := by
  intro idxs
  induction idxs with
  | nil => intro acc; rfl
  | cons i rest ih =>
    intro acc
    simp only [eventLoopImpl, eventPagesSpec]
    cases hp : doc.pages.get? i with
    | none => rfl
    | some p =>
      cases hf : (extractTable p).filter
          (fun r => r.length == maxRowLen (extractTable p) && r.all Option.isSome) with
      | nil => simp [eventPageSpec, hf]
      | cons h body =>
        simp only [Option.some_bind, eventPageSpec, hf, ih]
        cases eventPagesSpec doc rest with
        | none => rfl
        | some ds => simp [List.foldl_cons]

/-- C6: the two-page branch of `extract_event_table` applies the same
per-page step as the single-page branch to every page of the range and
concatenates row-wise without the Date/Time fusion, while the single-page
branch is exactly the per-page step followed by the fusion. -/
theorem event_table_branch_asymmetry :
    (∀ (doc : PDoc) (a b : Nat),
      extract_event_table doc [a, b] =
        (match eventRangeSpec doc a b with
         | none => emptyDF
         | some ds => ds.foldl pdConcat emptyDF)) ∧
    (∀ (doc : PDoc) (a : Nat),
      extract_event_table doc [a] =
        (((doc.pages.get? (a - 1)).bind
            (fun p => eventPageSpec (extractTable p))).bind fuseDT).getD emptyDF) := by
  constructor
  · intro doc a b
    show (eventLoopImpl doc (List.range' (a - 1) (b - (a - 1))) emptyDF).getD emptyDF = _
    rw [eventLoopImpl_eq doc (List.range' (a - 1) (b - (a - 1))) emptyDF]
    unfold eventRangeSpec
    cases eventPagesSpec doc (List.range' (a - 1) (b - (a - 1))) with
    | none => rfl
    | some ds => rfl
  · intro doc a
    simp only [extract_event_table]
    cases doc.pages.get? (a - 1) with
    | none => rfl
    | some p =>
      show eventSingle (extractTable p) =
        ((eventPageSpec (extractTable p)).bind fuseDT).getD emptyDF
      unfold eventSingle eventPageSpec
      cases (extractTable p).filter
          (fun r => r.length == maxRowLen (extractTable p) && r.all Option.isSome) with
      | nil => rfl
      | cons h body =>
        show eventFuseRows ((h.drop 1).filterMap id) (body.map (List.drop 1)) =
          (fuseDT ⟨(h.drop 1).filterMap id, body.map (List.drop 1)⟩).getD emptyDF
        unfold eventFuseRows fuseDT
        cases ((h.drop 1).filterMap id).findIdx? (fun c => c = "Date") with
        | none => rfl
        | some iD =>
          cases ((h.drop 1).filterMap id).findIdx? (fun c => c = "Time") with
          | none => rfl
          | some iT => rfl

/-- C8: on a 12-row composite CSV whose first null-bearing row sits at
index 5 (and whose `MEMBER CODE` splits four ways under the required
columns), the split returns table A as exactly the transformed rows 0-4
and table B as exactly rows 7-11 — the separator row and the row after it
are discarded; and with no null-bearing row at all the split raises a
structural error instead of returning tables. -/
theorem omts_split_rows :
    (∀ (cols : List String) (rows : List (List (Option String))) (mi : Nat),
      rows.length = 12 →
      rows.findIdx? rowHasNull = some 5 →
      (cols.map pyStrip).findIdx? (fun c => c = "MEMBER CODE") = some mi →
      ((rows.take 5).map (fun r => (splitOnSpace ((cellAt r mi).getD "")).length)).foldl max 0 = 4 →
      omtsReq.all (fun c => (cols.map pyStrip).contains c) = true →
      get_omts cols rows =
        Except.ok (⟨omtsCols9, (rows.take 5).map (omtsRowT (cols.map pyStrip) mi)⟩,
                   ⟨cols.map pyStrip, rows.drop 7⟩) ∧
      (rows.drop 7).length = 5) ∧
    (∀ (cols : List String) (rows : List (List (Option String))),
      rows.findIdx? rowHasNull = none →
      ∃ e, get_omts cols rows = Except.error e) := by
  constructor
  · intro cols rows mi h12 hfind hmi hw hreq
    constructor
    · unfold get_omts
      rw [hfind]
      show (match (cols.map pyStrip).findIdx? (fun c => c = "MEMBER CODE") with
            | none => Except.error "Error: MEMBER CODE"
            | some mi =>
              if ((rows.take 5).map
                    (fun r => (splitOnSpace ((cellAt r mi).getD "")).length)).foldl max 0 = 4 then
                if omtsReq.all (fun c => (cols.map pyStrip).contains c) = true then
                  Except.ok
                    ((⟨omtsCols9, (rows.take 5).map (omtsRowT (cols.map pyStrip) mi)⟩ : DF),
                     (⟨cols.map pyStrip, rows.drop (5 + 2)⟩ : DF))
                else Except.error "Error: column missing"
              else Except.error "Error: Columns must be same length as key") = _
      rw [hmi]
      show (if ((rows.take 5).map
              (fun r => (splitOnSpace ((cellAt r mi).getD "")).length)).foldl max 0 = 4 then
            if omtsReq.all (fun c => (cols.map pyStrip).contains c) = true then
              Except.ok
                ((⟨omtsCols9, (rows.take 5).map (omtsRowT (cols.map pyStrip) mi)⟩ : DF),
                 (⟨cols.map pyStrip, rows.drop (5 + 2)⟩ : DF))
            else Except.error "Error: column missing"
          else Except.error "Error: Columns must be same length as key") = _
      rw [if_pos hw, if_pos hreq]
    · rw [List.length_drop, h12]
  · intro cols rows hfind
    refine ⟨"Error: index 0 is out of bounds", ?_⟩
    unfold get_omts
    rw [hfind]

/-- Witness for C8 at a concrete 12-row input (null row at index 5) and a
concrete null-free input. -/
theorem omts_split_rows_witness :
    get_omts exOmtsCols exOmtsRows =
      Except.ok (⟨omtsCols9, (exOmtsRows.take 5).map (omtsRowT (exOmtsCols.map pyStrip) 2)⟩,
                 ⟨exOmtsCols.map pyStrip, exOmtsRows.drop 7⟩) ∧
    (∃ e, get_omts exOmtsCols [[some "x"]] = Except.error e) := by
  constructor
  · exact (omts_split_rows.1 exOmtsCols exOmtsRows 2 (by decide) (by decide) (by decide)
      (by decide) (by decide)).1
  · exact omts_split_rows.2 exOmtsCols [[some "x"]] (by decide)

/-- When no CSV file's parse re-raises, the `.csv` loop yields one entry
per file and no abort. -/
theorem runCsvFiles_noraise :
    ∀ (fs : List OmtsIn),
      fs.any (fun f => !(get_omts f.cols f.rows).toOption.isSome) = false →
      runCsvFiles fs =
        (fs.filterMap (fun f => ((get_omts f.cols f.rows).toOption).map Entry.csvEntry), false) := by
  intro fs
  induction fs with
  | nil => intro _; rfl
  | cons f rest ih =>
    intro h
    have hf : (!(get_omts f.cols f.rows).toOption.isSome) = false := by
      by_contra hc
      have : (!(get_omts f.cols f.rows).toOption.isSome) = true := by
        cases hx : (!(get_omts f.cols f.rows).toOption.isSome) with
        | false => exact absurd hx hc
        | true => rfl
      rw [List.any_cons, this] at h
      cases h
    have hrest : rest.any (fun f => !(get_omts f.cols f.rows).toOption.isSome) = false := by
      rw [List.any_cons, hf] at h
      simpa using h
    cases hg : get_omts f.cols f.rows with
    | error e =>
      rw [hg] at hf
      cases hf
    | ok p =>
      simp only [runCsvFiles, hg, ih hrest, List.filterMap_cons, Except.toOption,
                 Option.map_some]
      rfl

/-- When no non-`fut` Excel file is missing, the `.xls` loop yields one
entry per file and no abort. -/
theorem runXlsFiles_noraise :
    ∀ (fs : List (Bool × Option DF)),
      fs.any (fun fc => !fc.1 && fc.2.isNone) = false →
      runXlsFiles fs = (fs.map (fun fc => Entry.xlsEntry fc.2), false) := by
  intro fs
  induction fs with
  | nil => intro _; rfl
  | cons fc rest ih =>
    intro h
    have hrest : rest.any (fun fc => !fc.1 && fc.2.isNone) = false := by
      rw [List.any_cons] at h
      rcases Bool.or_eq_false_iff.mp h with ⟨_, h2⟩
      exact h2
    have hfc : (!fc.1 && fc.2.isNone) = false := by
      rw [List.any_cons] at h
      exact (Bool.or_eq_false_iff.mp h).1
    obtain ⟨isFut, content⟩ := fc
    cases isFut with
    | true => simp [runXlsFiles, ih hrest]
    | false =>
      cases content with
      | none => simp at hfc
      | some d => simp [runXlsFiles, ih hrest]

/-- When no PDF file is missing, the `.pdf` loop yields one entry per file
and no abort. -/
theorem runPdfFiles_noraise :
    ∀ (fs : List (Option PDoc)), fs.any (fun f => f.isNone) = false →
      runPdfFiles fs = (fs.map (fun _ => Entry.pdfEntry), false) := by
  intro fs
  induction fs with
  | nil => intro _; rfl
  | cons f rest ih =>
    intro h
    have hrest : rest.any (fun f => f.isNone) = false := by
      rw [List.any_cons] at h
      exact (Bool.or_eq_false_iff.mp h).2
    cases f with
    | none => simp at h
    | some doc => simp [runPdfFiles, ih hrest]

/-- A group that raises nothing contributes exactly its per-file entries. -/
theorem runGroup_noraise (g : FGroup) (h : groupRaises g = false) :
    runGroup g = (groupEntriesSpec g, false) := by
  cases g with
  | zG c => rfl
  | csvG fs => exact runCsvFiles_noraise fs h
  | xlsG fs => exact runXlsFiles_noraise fs h
  | pdfG fs => exact runPdfFiles_noraise fs h

/-- The abort flag of the `.csv` loop is exactly "some file re-raises". -/
theorem runCsvFiles_snd :
    ∀ (fs : List OmtsIn),
      (runCsvFiles fs).2 = fs.any (fun f => !(get_omts f.cols f.rows).toOption.isSome) := by
  intro fs
  induction fs with
  | nil => rfl
  | cons f rest ih =>
    cases hg : get_omts f.cols f.rows with
    | error e => simp [runCsvFiles, hg, Except.toOption]
    | ok p => simp [runCsvFiles, hg, Except.toOption, ih]

/-- The abort flag of the `.xls` loop is exactly "some `indhist` read
fails". -/
theorem runXlsFiles_snd :
    ∀ (fs : List (Bool × Option DF)),
      (runXlsFiles fs).2 = fs.any (fun fc => !fc.1 && fc.2.isNone) := by
  intro fs
  induction fs with
  | nil => rfl
  | cons fc rest ih =>
    obtain ⟨isFut, content⟩ := fc
    cases isFut with
    | true => simp [runXlsFiles, ih]
    | false =>
      cases content with
      | none => simp [runXlsFiles]
      | some d => simp [runXlsFiles, ih]

/-- The abort flag of the `.pdf` loop is exactly "some file is missing". -/
theorem runPdfFiles_snd :
    ∀ (fs : List (Option PDoc)), (runPdfFiles fs).2 = fs.any (fun f => f.isNone) := by
  intro fs
  induction fs with
  | nil => rfl
  | cons f rest ih =>
    cases f with
    | none => simp [runPdfFiles]
    | some doc => simp [runPdfFiles, ih]

/-- The abort flag of one group iteration is exactly `groupRaises`. -/
theorem runGroup_snd (g : FGroup) : (runGroup g).2 = groupRaises g := by
  cases g with
  | zG c => rfl
  | csvG fs => exact runCsvFiles_snd fs
  | xlsG fs => exact runXlsFiles_snd fs
  | pdfG fs => exact runPdfFiles_snd fs

/-- A raise-free prefix of groups is processed completely before the rest
of the loop runs. -/
theorem execGo_append_noraise :
    ∀ (pre rest : List FGroup), (∀ g ∈ pre, groupRaises g = false) →
      execGo (pre ++ rest) = (pre.map groupEntriesSpec).flatten ++ execGo rest := by
  intro pre
  induction pre with
  | nil => intro rest _; rfl
  | cons g pre' ih =>
    intro rest h
    have hg := h g (List.mem_cons_self g pre')
    rw [List.cons_append]
    show (if (runGroup g).2 = true then (runGroup g).1
          else (runGroup g).1 ++ execGo (pre' ++ rest)) = _
    rw [runGroup_noraise g hg]
    show (if false = true then groupEntriesSpec g
          else groupEntriesSpec g ++ execGo (pre' ++ rest)) = _
    rw [if_neg (by simp), ih rest (fun x hx => h x (List.mem_cons_of_mem g hx)),
        List.map_cons, List.flatten_cons, List.append_assoc]

/-- C1 amended: when no file's parser re-raises, every file of every group
contributes exactly its entry (null entries for failures caught inside
the parsers) in order; but as soon as one group's file re-raises, the
dispatcher's loop-level `except` stops everything — the result is the
entries of the preceding groups plus the raising group's entries
collected before the raise, and no later group is processed. -/
theorem execution_dispatch_amended :
    (∀ (gs : List FGroup), (∀ g ∈ gs, groupRaises g = false) →
      execution_by_extension gs = (gs.map groupEntriesSpec).flatten) ∧
    (∀ (pre : List FGroup) (bad : FGroup) (suf : List FGroup),
      (∀ g ∈ pre, groupRaises g = false) → groupRaises bad = true →
      execution_by_extension (pre ++ bad :: suf) =
        (pre.map groupEntriesSpec).flatten ++ (runGroup bad).1) := by
  constructor
  · intro gs h
    have := execGo_append_noraise gs [] h
    rw [List.append_nil] at this
    unfold execution_by_extension
    rw [this]
    simp [execGo]
  · intro pre bad suf hpre hbad
    unfold execution_by_extension
    rw [execGo_append_noraise pre (bad :: suf) hpre]
    have h2 : (runGroup bad).2 = true := by rw [runGroup_snd]; exact hbad
    have h3 : execGo (bad :: suf) = (runGroup bad).1 := by
      show (if (runGroup bad).2 = true then (runGroup bad).1
            else (runGroup bad).1 ++ execGo suf) = (runGroup bad).1
      rw [if_pos h2]
    rw [h3]

/-- Witness for C1's amended dispatcher theorem: a raise-free run keeps
every entry (null ones included); a raising CSV group cuts the run short
right after the preceding groups' entries. -/
theorem execution_dispatch_amended_witness :
    execution_by_extension [FGroup.zG none, FGroup.xlsG [(true, none)]] =
      [Entry.zEntry none, Entry.xlsEntry none] ∧
    execution_by_extension
        [FGroup.zG none, FGroup.csvG [exBadOmts], FGroup.xlsG [(true, some exGoodDF)]] =
      [Entry.zEntry none] := by
  constructor
  · rw [execution_dispatch_amended.1 [FGroup.zG none, FGroup.xlsG [(true, none)]] (by decide)]
    decide
  · rw [show ([FGroup.zG none, FGroup.csvG [exBadOmts],
          FGroup.xlsG [(true, some exGoodDF)]] : List FGroup) =
        [FGroup.zG none] ++ FGroup.csvG [exBadOmts] :: [FGroup.xlsG [(true, some exGoodDF)]]
      from rfl]
    rw [execution_dispatch_amended.2 [FGroup.zG none] (FGroup.csvG [exBadOmts])
        [FGroup.xlsG [(true, some exGoodDF)]] (by decide) (by decide)]
    decide
